import Mathlib

/-
Shallow embedding of PasswordDetector.py (NZBGetPasswordDetector).

Text is modelled as List Char so that every operation is an executable
Lean function.  External collaborators are passed in explicitly:

  * the unrar subprocess is a probe oracle of type List Char → ProbeOutcome
    (its combined output classification, its failure to launch);
  * the filesystem record of tested files is an Option (List Char)
    (none = the per-job temp file does not exist, some c = its content);
  * the NZBGet RPC listings (listfiles, listgroups) arrive as already
    decoded values.  The ad hoc line-prefix decoding of the raw JSON text
    in the script is transport plumbing that extracts exactly the
    (id, filename) and NZBID fields which these values carry.

Filenames coming from a directory listing or a queue listing never contain
a newline in the deployments the script targets, but no such restriction
is built into the definitions; where a property needs it, it appears as an
explicit hypothesis.
-/

/-- Exit code POSTPROCESS_SUCCESS used by NZBGet (source line 86). -/
def POSTPROCESS_SUCCESS : Nat := 93

/-- Exit code POSTPROCESS_NONE used by NZBGet (source line 87). -/
def POSTPROCESS_NONE : Nat := 95

/-- Exit code POSTPROCESS_ERROR used by NZBGet (source line 88). -/
def POSTPROCESS_ERROR : Nat := 94

/-- ASCII lowercasing of one character, as done by the Python lower calls. -/
def lcChar (c : Char) : Char :=
  if 'A' ≤ c ∧ c ≤ 'Z' then Char.ofNat (c.toNat + 32) else c

/-- Python str.lower on a char list (ASCII range). -/
def lc (cs : List Char) : List Char := cs.map lcChar

/-- The ASCII whitespace characters removed by Python str.strip. -/
def isPySpace (c : Char) : Bool :=
  c = ' ' || c = '\t' || c = '\n' || c = '\r' || c = '\x0b' || c = '\x0c'

/-- Python str.strip: drop whitespace from both ends. -/
def pyStrip (cs : List Char) : List Char :=
  ((cs.dropWhile isPySpace).reverse.dropWhile isPySpace).reverse

/-- Python split on a comma separator.  The result always has one group
    more than there are commas; in particular the empty string splits into
    one empty group, never into an empty list. -/
def splitComma : List Char → List (List Char)
  | [] => [[]]
  | c :: t =>
    if c = ',' then [] :: splitComma t
    else
      match splitComma t with
      | [] => [[c]]
      | g :: gs => (c :: g) :: gs

/-- Whether the first list is an initial segment of the second
    (the shape of Python startswith, used to express substring search). -/
def leadsWith : List Char → List Char → Bool
  | [], _ => true
  | _ :: _, [] => false
  | p :: ps, c :: cs => p == c && leadsWith ps cs

/-- Python substring containment (the in operator on str): the needle
    occurs contiguously somewhere in the hay. -/
def hasInfix : List Char → List Char → Bool
  | [], needle => needle.isEmpty
  | c :: t, needle => leadsWith needle (c :: t) || hasInfix t needle

/-- Default value of the hidden option PasswordStrings (source line 96). -/
def PasswordStrings : List Char :=
  "*,wrong password,The specified password is incorrect,encrypted headers,Incorrect password for".toList

/-- check_passwordstrings (source lines 184-204): split the configured
    marker list on commas; if the list is empty or the single empty entry,
    return False; otherwise return True exactly when some entry, stripped
    and lowercased, is nonblank and occurs in the lowercased captured
    output or error text.  The configured marker string is passed as the
    first argument in place of the module-level global; the verbose debug
    printing does not affect the returned value and is not modelled. -/
def check_passwordstrings (passwordStrings outtext errtext : List Char) : Bool :=
  let ps := splitComma passwordStrings
  if ps = [] ∨ ps = [[]] then false
  else
    ps.any (fun m =>
      let t := lc (pyStrip m)
      if t ≠ [] then hasInfix (lc outtext) t || hasInfix (lc errtext) t
      else false)

/-- Outcome of probing one file with the unrar subprocess, as observed by
    the loop in contains_password: the captured output matched a password
    marker, it matched none, or the subprocess raised an exception. -/
inductive ProbeOutcome
  | found
  | clean
  | fail
deriving DecidableEq

/-- Observable result of one contains_password scan (source lines 252-272):
    the truth value of the early return, the files actually handed to the
    unrar subprocess in order, the files whose probe raised (each is logged
    with an ERROR line), and the accumulated tested string handed to
    save_tested (none when the early positive return skipped the save). -/
structure ScanResult where
  found : Bool
  probed : List (List Char)
  errors : List (List Char)
  saved : Option (List Char)
deriving DecidableEq

/-- The three characters of the literal "tmp" tested by the avoidance
    check in contains_password (source line 257). -/
def tmpChars : List Char := "tmp".toList

/-- The accumulated tested string: each filename followed by a newline,
    in visiting order, exactly as built by tested += file + a newline. -/
def joinChars : List (List Char) → List Char
  | [] => []
  | f :: t => f ++ '\n' :: joinChars t

/-- The for-loop of contains_password (source lines 255-272) over the
    untested files: skip probing for a filename containing "tmp"; probe the
    others, returning True immediately on a marker match (leaving the
    accumulated tested string unsaved); on a subprocess exception log the
    error and continue; append every visited filename to the tested
    accumulator; after the loop hand the accumulator to save_tested. -/
def scanFiles (probe : List Char → ProbeOutcome) : List (List Char) → ScanResult
  | [] => { found := false, probed := [], errors := [], saved := some [] }
  | f :: rest =>
    if hasInfix f tmpChars then
      let r := scanFiles probe rest
      { found := r.found, probed := r.probed, errors := r.errors,
        saved := r.saved.map (fun s => f ++ '\n' :: s) }
    else
      match probe f with
      | .found => { found := true, probed := [f], errors := [], saved := none }
      | .clean =>
        let r := scanFiles probe rest
        { found := r.found, probed := f :: r.probed, errors := r.errors,
          saved := r.saved.map (fun s => f ++ '\n' :: s) }
      | .fail =>
        let r := scanFiles probe rest
        { found := r.found, probed := f :: r.probed, errors := f :: r.errors,
          saved := r.saved.map (fun s => f ++ '\n' :: s) }

/-- Specification-side description of the probing order: the sequence of
    files in the order the loop receives them, up to and including the
    first positively classified one (the whole sequence when none
    classifies positive). -/
def takeToFound (probe : List Char → ProbeOutcome) : List (List Char) → List (List Char)
  | [] => []
  | f :: t => if probe f = .found then [f] else f :: takeToFound probe t

/-- The filenames not skipped by the "tmp" avoidance check. -/
def nonTmp (f : List Char) : Bool := !hasInfix f tmpChars

/-- Prepend a character to the first line of a split result, starting a
    line when there is none yet. -/
def consLine (c : Char) : List (List Char) → List (List Char)
  | [] => [[c]]
  | l :: ls => (c :: l) :: ls

/-- Python str.splitlines restricted to the line breaks that can occur in
    this script: a newline, a carriage return, or the pair of both. -/
def pySplitlines : List Char → List (List Char)
  | [] => []
  | '\r' :: '\n' :: cs => [] :: pySplitlines cs
  | '\n' :: cs => [] :: pySplitlines cs
  | '\r' :: cs => [] :: pySplitlines cs
  | c :: cs => consLine c (pySplitlines cs)

/-- save_tested (source lines 227-229): append the data to the per-job
    temp file; opening in append mode creates a missing file. -/
def save_tested (store : Option (List Char)) (data : List Char) : Option (List Char) :=
  match store with
  | none => some data
  | some c => some (c ++ data)

/-- get_latest_file (source lines 208-223): with an existing record,
    return the directory files minus the recorded lines.  The Python
    expression is list(set(files)-set(tested)): its membership is the set
    difference, but its enumeration order is implementation-defined hash
    order, which this order-preserving filter does NOT model; the filter
    fixes one admissible enumeration.  Results that depend only on the
    membership of this value (emptiness, which files appear) are faithful;
    any statement about the enumeration order must instead quantify over
    the admissible enumerations captured by isSetDiffEnum.  With no
    record, create it empty and return every file (that branch does
    preserve the os.listdir order).  The updated record state is returned
    alongside. -/
def get_latest_file (store : Option (List Char)) (files : List (List Char)) :
    List (List Char) × Option (List Char) :=
  match store with
  | none => (files, some [])
  | some c => (files.filter (fun f => !decide (f ∈ pySplitlines c)), some c)

/-- The admissible values of the Python expression
    list(set(files)-set(tested)) of get_latest_file line 213: a
    duplicate-free enumeration, in unspecified order, of exactly the
    directory files that are not recorded tested.  The hash-based set
    order gives no further guarantee, so every such enumeration is an
    admissible behavior of the code. -/
def isSetDiffEnum (enum files tested : List (List Char)) : Prop :=
  enum.Nodup
  ∧ (∀ x ∈ enum, x ∈ files ∧ x ∉ tested)
  ∧ (∀ x ∈ files, x ∉ tested → x ∈ enum)

/-- contains_password (source lines 252-272) together with its effect on
    the per-job record: compute the untested files, run the scan loop, and
    append the accumulated tested string when the loop ran to completion. -/
def contains_password (probe : List Char → ProbeOutcome)
    (store : Option (List Char)) (listing : List (List Char)) :
    ScanResult × Option (List Char) :=
  let p := get_latest_file store listing
  let r := scanFiles probe p.1
  (r, match r.saved with
      | none => p.2
      | some s => save_tested p.2 s)

/-- A decimal digit, as matched by the regex digit class. -/
def isDigitChar (c : Char) : Bool := '0' ≤ c && c ≤ '9'

/-- Numeric value of a digit run, as computed by the Python int call
    (leading zeros permitted). -/
def digitsVal (ds : List Char) : Nat :=
  ds.foldl (fun a c => a * 10 + (c.toNat - 48)) 0

/-- One anchored attempt of the first pattern at a given position of the
    lowercased name: a ".part" tag, a nonempty greedy digit run, then a
    ".rar" tag, returning the numeric capture. -/
def tryPart (cs : List Char) : Option Nat :=
  if leadsWith ".part".toList cs then
    let rest := cs.drop 5
    let ds := rest.takeWhile isDigitChar
    if ds = [] then none
    else if leadsWith ".rar".toList (rest.dropWhile isDigitChar) then some (digitsVal ds)
    else none
  else none

/-- One anchored attempt of the second pattern at a given position: a ".r"
    tag followed by a nonempty greedy digit run. -/
def tryR (cs : List Char) : Option Nat :=
  if leadsWith ".r".toList cs then
    let ds := (cs.drop 2).takeWhile isDigitChar
    if ds = [] then none else some (digitsVal ds)
  else none

/-- The rightmost position of a name where an attempt succeeds.  This is
    the capture produced by the Python re.match calls: the leading greedy
    dot-star pushes the tail of the pattern to the last position where it
    can still match. -/
def lastHit (f : List Char → Option Nat) : List Char → Option Nat
  | [] => f []
  | c :: cs =>
    match lastHit f cs with
    | some n => some n
    | none => f (c :: cs)

/-- The number extracted from a filename by the matching step of
    sort_inner_files (source lines 337-350): regex1 for ".partNN.rar"
    first, else regex2 for ".rNN", both case-insensitive. -/
def matchNum (name : List Char) : Option Nat :=
  match lastHit tryPart (lc name) with
  | some n => some n
  | none => lastHit tryR (lc name)

/-- The update applied by one loop iteration of sort_inner_files to the
    running (file_id, file_num) pair: a non-matching name changes nothing;
    a matching one replaces the pair when no value is held yet, when the
    held value is zero (the Python falsy test also fires on 0), or when
    the new value is strictly greater. -/
def selStep (st : Option (Nat × Nat)) (p : Nat × List Char) : Option (Nat × Nat) :=
  match matchNum p.2 with
  | none => st
  | some n =>
    match st with
    | none => some (p.1, n)
    | some im => if im.2 = 0 ∨ n > im.2 then some (p.1, n) else some im

/-- sort_inner_files (source lines 325-366), as a function of the decoded
    listfiles listing of (id, filename) pairs: fold the selection step over
    the listing and return the chosen id; the Python truthiness test on
    file_id also yields the no-file branch when the chosen id is 0. -/
def sort_inner_files (listing : List (Nat × List Char)) : Option Nat :=
  match listing.foldl selStep none with
  | none => none
  | some im => if im.1 = 0 then none else some im.1

/-- The selection step restricted to the (id, number) pairs of matching
    files, used to state and prove the fold characterization. -/
def selStepNum (st : Option (Nat × Nat)) (q : Nat × Nat) : Option (Nat × Nat) :=
  match st with
  | none => some q
  | some im => if im.2 = 0 ∨ q.2 > im.2 then some q else some im

/-- The (id, extracted number) pairs of the listing entries that match
    either pattern, in listing order. -/
def matchingFiles (l : List (Nat × List Char)) : List (Nat × Nat) :=
  l.filterMap (fun p => (matchNum p.2).map (fun n => (p.1, n)))

/-- The greatest extracted number over a list of matching pairs. -/
def maxNums (ms : List (Nat × Nat)) : Nat :=
  ms.foldl (fun a q => max a q.2) 0

/-- Observable result of clean_up: how many listgroups queries were made
    and which record files were removed. -/
structure CleanupResult where
  queried : Nat
  removed : List String
deriving DecidableEq

/-- clean_up (source lines 370-398): list the stored per-job record files;
    when more than one is present, query the queue once for the active
    NZBIDs; remove every stored record not among those ids, and also the
    record of the current job when it exists and is not already slated.
    The decoded active-id list is passed in as what the single query would
    return; os.listdir yields pairwise distinct names, so the Python set
    difference is kept as a filter. -/
def clean_up (nzb_id : Option String) (files : List String) (activeIds : List String) :
    CleanupResult :=
  let queried := if 1 < files.length then 1 else 0
  let nzbids : List String := if 1 < files.length then activeIds else []
  let old0 := files.filter (fun f => !decide (f ∈ nzbids))
  let old :=
    match nzb_id with
    | some nid => if nid ∈ files ∧ nid ∉ old0 then old0 ++ [nid] else old0
    | none => old0
  { queried := queried, removed := old }

/-- Result of the start-up checks: either the script exits with the given
    code before any detection, or control proceeds into main. -/
inductive StartCheckResult
  | exit (code : Nat)
  | proceed
deriving DecidableEq

/-- Lookup of an environment variable (os.environ.get). -/
def getEnvVal (env : List (String × String)) (k : String) : Option String :=
  (env.find? (fun p => p.1 == k)).map (fun p => p.2)

/-- Key presence in the environment (the in operator on os.environ). -/
def hasKey (env : List (String × String)) (k : String) : Bool :=
  (getEnvVal env k).isSome

/-- start_check (source lines 123-173): the guard chain run before any
    detection, in source order.  The clean_up calls made by some branches
    affect only the temp store, not the chosen exit, and the directory
    existence test is passed in as a boolean. -/
def start_check (env : List (String × String)) (dirExists : Bool) : StartCheckResult :=
  if !(hasKey env "NZBNA_EVENT" || hasKey env "NZBPP_DIRECTORY")
      || !hasKey env "NZBOP_ARTICLECACHE" then
    .exit 1
  else if !([some "NZB_ADDED", some "FILE_DOWNLOADED", some "NZB_DOWNLOADED",
             none].contains (getEnvVal env "NZBNA_EVENT")) then
    .exit 0
  else if getEnvVal env "NZBPP_STATUS" == some "FAILURE/BAD" then
    .exit POSTPROCESS_SUCCESS
  else if getEnvVal env "NZBPR_PASSWORDDETECTOR_HASPASSWORD" == some "yes" then
    .exit POSTPROCESS_SUCCESS
  else if hasKey env "NZBPR_*Unpack:Password" then
    .exit POSTPROCESS_SUCCESS
  else if hasKey env "NZBPP_DIRECTORY" && !dirExists then
    .exit POSTPROCESS_NONE
  else if getEnvVal env "NZBPP_TOTALSTATUS" == some "FAILURE" then
    .exit POSTPROCESS_NONE
  else if !hasKey env "NZBPO_PASSACTION" then
    .exit POSTPROCESS_ERROR
  else .proceed

/-- Whether an invocation gets past start_check into the detection part of
    main: the password-clearing branch of main (source lines 476-477) runs
    only when this is true. -/
def detection_reached (env : List (String × String)) (dirExists : Bool) : Bool :=
  match start_check env dirExists with
  | .proceed => true
  | .exit _ => false

/-- A queue-script environment of a completed, previously flagged job:
    NZB_DOWNLOADED event, article cache option present, the
    PASSWORDDETECTOR_HASPASSWORD flag left by an earlier invocation, and
    the PassAction option configured. -/
def envPrevFound : List (String × String) :=
  [("NZBNA_EVENT", "NZB_DOWNLOADED"),
   ("NZBOP_ARTICLECACHE", "200"),
   ("NZBPR_PASSWORDDETECTOR_HASPASSWORD", "yes"),
   ("NZBPO_PASSACTION", "Pause")]

/-- A probe oracle classifying every file positive. -/
def probeAllFound : List Char → ProbeOutcome := fun _ => .found

/-- A probe oracle classifying every file negative. -/
def probeAllClean : List Char → ProbeOutcome := fun _ => .clean

/-- A probe oracle failing (raising) on every file. -/
def probeAllFail : List Char → ProbeOutcome := fun _ => .fail

/-- A probe oracle positive exactly on the file b.rar. -/
def probeFoundB : List Char → ProbeOutcome :=
  fun x => if x = "b.rar".toList then .found else .clean

/-- The three-file listing of the specification example for the part
    selection. -/
def exampleListing : List (Nat × List Char) :=
  [(2, "a.part02.rar".toList), (5, "a.part10.rar".toList), (9, "a.r1".toList)]

/-- The saved accumulator is exactly the visited filenames joined with
    newlines when the loop ran to completion, and nothing at all when the
    early positive return fired. -/
theorem scanFiles_saved (probe : List Char → ProbeOutcome) (files : List (List Char)) :
    (scanFiles probe files).saved =
      if (scanFiles probe files).found then none else some (joinChars files) := by
  induction files with
  | nil => rfl
  | cons f rest ih =>
    by_cases htmp : hasInfix f tmpChars = true
    · simp only [scanFiles, htmp, if_pos]
      rw [ih]
      by_cases hf : (scanFiles probe rest).found <;> simp [hf, joinChars]
    · rw [Bool.not_eq_true] at htmp
      cases hp : probe f with
      | found => simp [scanFiles, htmp, hp]
      | clean =>
        simp only [scanFiles, htmp, Bool.false_eq_true, if_neg, not_false_iff, hp]
        rw [ih]
        by_cases hf : (scanFiles probe rest).found <;> simp [hf, joinChars]
      | fail =>
        simp only [scanFiles, htmp, Bool.false_eq_true, if_neg, not_false_iff, hp]
        rw [ih]
        by_cases hf : (scanFiles probe rest).found <;> simp [hf, joinChars]

/-- The files handed to the subprocess are exactly the non-tmp files of
    the enumeration handed to the loop, in its order, cut after the first
    positive one. -/
theorem scanFiles_probed (probe : List Char → ProbeOutcome) (files : List (List Char)) :
    (scanFiles probe files).probed = takeToFound probe (files.filter nonTmp) := by
  induction files with
  | nil => rfl
  | cons f rest ih =>
    by_cases htmp : hasInfix f tmpChars = true
    · have hnt : nonTmp f = false := by simp [nonTmp, htmp]
      simp [scanFiles, htmp, List.filter_cons_of_neg, hnt, ih]
    · rw [Bool.not_eq_true] at htmp
      have hnt : nonTmp f = true := by simp [nonTmp, htmp]
      cases hp : probe f with
      | found => simp [scanFiles, htmp, List.filter_cons_of_pos, hnt, takeToFound, hp]
      | clean => simp [scanFiles, htmp, List.filter_cons_of_pos, hnt, takeToFound, hp, ih]
      | fail => simp [scanFiles, htmp, List.filter_cons_of_pos, hnt, takeToFound, hp, ih]

/-- Membership in the cut listing implies membership in the listing. -/
theorem mem_takeToFound {probe : List Char → ProbeOutcome} {l : List (List Char)}
    {x : List Char} (h : x ∈ takeToFound probe l) : x ∈ l := by
  induction l with
  | nil => simp [takeToFound] at h
  | cons f t ih =>
    by_cases hp : probe f = ProbeOutcome.found
    · simp [takeToFound, hp] at h
      simp [h]
    · simp only [takeToFound, hp, if_neg, not_false_iff, List.mem_cons] at h
      rcases h with h | h
      · simp [h]
      · exact List.mem_cons_of_mem _ (ih h)

/-- C4 amended: within one detecting invocation, over any admissible
    enumeration of the untested files (the Python set difference fixes
    membership but not order), the files passed to the probe are exactly
    the non-tmp entries of that enumeration, in its order, up to and
    including the first positively classified one, so no file after the
    first positive is probed; on a positive outcome nothing is handed to
    save_tested, so no file at all is marked tested; and every probed file
    is an untested file of the directory listing. -/
theorem scan_probes_enum_order (probe : List Char → ProbeOutcome)
    (listing tested enum : List (List Char))
    (henum : isSetDiffEnum enum listing tested) :
    (scanFiles probe enum).probed = takeToFound probe (enum.filter nonTmp)
    ∧ ((scanFiles probe enum).found = true → (scanFiles probe enum).saved = none)
    ∧ (∀ f ∈ (scanFiles probe enum).probed, f ∈ listing ∧ f ∉ tested) := by
  refine ⟨scanFiles_probed probe enum, fun h => by simp [scanFiles_saved, h], ?_⟩
  intro f hf
  rw [scanFiles_probed] at hf
  exact henum.2.1 f (List.mem_filter.mp (mem_takeToFound hf)).1

/-- Witness for scan_probes_enum_order: a scrambled admissible enumeration
    of three untested files, with the middle entry probing positive. -/
theorem scan_probes_enum_order_witness :
    (scanFiles probeFoundB ["c.rar".toList, "b.rar".toList, "a.rar".toList]).probed
        = takeToFound probeFoundB
            ((["c.rar".toList, "b.rar".toList, "a.rar".toList]).filter nonTmp)
    ∧ (scanFiles probeFoundB ["c.rar".toList, "b.rar".toList, "a.rar".toList]).saved = none
    ∧ "b.rar".toList ∈ ["a.rar".toList, "b.rar".toList, "c.rar".toList] := by
  have h := scan_probes_enum_order probeFoundB
      ["a.rar".toList, "b.rar".toList, "c.rar".toList] []
      ["c.rar".toList, "b.rar".toList, "a.rar".toList]
      (by unfold isSetDiffEnum; decide)
  exact ⟨h.1, h.2.1 (by decide), (h.2.2 "b.rar".toList (by decide)).1⟩

/-- C4 counterexample: with a record present, the loop input is the Python
    set difference, whose enumeration order is implementation-defined; the
    reversed enumeration of the two untested files of the listing is an
    admissible behavior, and the loop then probes in that reversed order,
    which is not the listing order. -/
theorem scan_order_counterexample :
    isSetDiffEnum ["b.rar".toList, "a.rar".toList]
        ["a.rar".toList, "b.rar".toList] []
    ∧ (scanFiles probeAllClean ["b.rar".toList, "a.rar".toList]).probed
        = ["b.rar".toList, "a.rar".toList]
    ∧ ["b.rar".toList, "a.rar".toList] ≠ ["a.rar".toList, "b.rar".toList] := by
  unfold isSetDiffEnum
  decide

/-- C1 amended: the visited filenames are persisted exactly when the scan
    ran to completion without a positive classification, in which case all
    of them are; when some file classified positive the early return skips
    save_tested and nothing at all is persisted. -/
theorem scan_persist_iff_no_password (probe : List Char → ProbeOutcome)
    (files : List (List Char)) :
    ((scanFiles probe files).found = false →
      (scanFiles probe files).saved = some (joinChars files))
    ∧ ((scanFiles probe files).found = true → (scanFiles probe files).saved = none) :=
  ⟨fun h => by simp [scanFiles_saved, h], fun h => by simp [scanFiles_saved, h]⟩

/-- Witness for scan_persist_iff_no_password at a concrete clean scan. -/
theorem scan_persist_iff_no_password_witness :
    (scanFiles probeAllClean ["a.rar".toList]).found = false
    ∧ (scanFiles probeAllClean ["a.rar".toList]).saved
        = some (joinChars ["a.rar".toList]) :=
  ⟨by decide, (scan_persist_iff_no_password probeAllClean ["a.rar".toList]).1 (by decide)⟩

/-- C1 counterexample: when the first visited file probes positive the
    invocation returns True with an empty per-job record: the first file is
    not recorded tested (nothing is). -/
theorem contains_password_positive_persists_nothing :
    (contains_password probeAllFound none
        ["a.part01.rar".toList, "a.part02.rar".toList]).1.found = true
    ∧ (contains_password probeAllFound none
        ["a.part01.rar".toList, "a.part02.rar".toList]).2 = some [] := by decide

/-- C8: a file whose probe raises is treated exactly like a negative one
    apart from the logged error: the scan result is the continuation on the
    remaining files with this file prepended to the probed and error lists
    and to the tested accumulator, and in particular the reported truth
    value is whatever the remaining files yield. -/
theorem scan_fail_is_negative (probe : List Char → ProbeOutcome) (f : List Char)
    (rest : List (List Char)) (htmp : hasInfix f tmpChars = false)
    (hfail : probe f = ProbeOutcome.fail) :
    scanFiles probe (f :: rest) =
      { found := (scanFiles probe rest).found,
        probed := f :: (scanFiles probe rest).probed,
        errors := f :: (scanFiles probe rest).errors,
        saved := (scanFiles probe rest).saved.map (fun s => f ++ '\n' :: s) } := by
  simp [scanFiles, htmp, hfail]

/-- Witness for scan_fail_is_negative at a concrete failing probe. -/
theorem scan_fail_is_negative_witness :
    scanFiles probeAllFail ["a.rar".toList] =
      { found := (scanFiles probeAllFail []).found,
        probed := "a.rar".toList :: (scanFiles probeAllFail []).probed,
        errors := "a.rar".toList :: (scanFiles probeAllFail []).errors,
        saved := (scanFiles probeAllFail []).saved.map
            (fun s => "a.rar".toList ++ '\n' :: s) } :=
  scan_fail_is_negative probeAllFail "a.rar".toList [] (by decide) rfl

/-- Unfolding of pySplitlines on a head character that is no line break. -/
theorem pySplitlines_other (c : Char) (cs : List Char) (h1 : c ≠ '\n') (h2 : c ≠ '\r') :
    pySplitlines (c :: cs) = consLine c (pySplitlines cs) := by
  rw [pySplitlines.eq_def]
  split <;> simp_all

/-- Splitting a line-break-free line followed by a newline peels off
    exactly that line. -/
theorem ps_block (f : List Char) (h1 : '\n' ∉ f) (h2 : '\r' ∉ f) (z : List Char) :
    pySplitlines (f ++ '\n' :: z) = f :: pySplitlines z := by
  induction f with
  | nil => rfl
  | cons c f' ih =>
    have hc1 : c ≠ '\n' := fun h => h1 (h ▸ List.mem_cons_self c f')
    have hc2 : c ≠ '\r' := fun h => h2 (h ▸ List.mem_cons_self c f')
    have h1' : '\n' ∉ f' := fun h => h1 (List.mem_cons_of_mem c h)
    have h2' : '\r' ∉ f' := fun h => h2 (List.mem_cons_of_mem c h)
    rw [List.cons_append, pySplitlines_other c _ hc1 hc2, ih h1' h2']
    rfl

/-- Splitting the joined tested accumulator of line-break-free names
    recovers exactly those names. -/
theorem ps_joinChars (fs : List (List Char))
    (h : ∀ f ∈ fs, '\n' ∉ f ∧ '\r' ∉ f) :
    pySplitlines (joinChars fs) = fs := by
  induction fs with
  | nil => rfl
  | cons g t ih =>
    have hg := h g (List.mem_cons_self g t)
    simp only [joinChars]
    rw [ps_block g hg.1 hg.2, ih (fun f hf => h f (List.mem_cons_of_mem g hf))]

/-- The tested accumulator of a concatenation of visit lists is the
    concatenation of the accumulators. -/
theorem joinChars_append (a b : List (List Char)) :
    joinChars (a ++ b) = joinChars a ++ joinChars b := by
  induction a with
  | nil => rfl
  | cons f t ih => simp [joinChars, ih]

/-- C7 amended: for filename sets free of line-break characters, recording
    the visited filenames and then recomputing the untested subset from the
    durable record content alone (all a restarted process could read)
    yields the empty set, whether the record was absent or already held
    such lines. -/
theorem record_then_untested_empty (store : Option (List Char))
    (prior F : List (List Char))
    (hstore : store = none ∨ store = some (joinChars prior))
    (hprior : ∀ l ∈ prior, '\n' ∉ l ∧ '\r' ∉ l)
    (hF : ∀ f ∈ F, '\n' ∉ f ∧ '\r' ∉ f) :
    (get_latest_file (save_tested store (joinChars F)) F).1 = [] := by
  rcases hstore with h | h
  · subst h
    simp only [save_tested, get_latest_file]
    rw [ps_joinChars F hF]
    rw [List.filter_eq_nil_iff]
    intro f hf
    simp [hf]
  · subst h
    simp only [save_tested, get_latest_file]
    rw [← joinChars_append,
        ps_joinChars (prior ++ F) (by
          intro f hf
          rcases List.mem_append.mp hf with h | h
          · exact hprior f h
          · exact hF f h)]
    rw [List.filter_eq_nil_iff]
    intro f hf
    simp [List.mem_append_right prior hf]

/-- Witness for record_then_untested_empty on a fresh record and one
    ordinary filename. -/
theorem record_then_untested_empty_witness :
    (get_latest_file (save_tested none (joinChars ["a.rar".toList]))
        ["a.rar".toList]).1 = [] :=
  record_then_untested_empty none [] ["a.rar".toList] (Or.inl rfl)
    (by intro l hl; simp at hl) (by decide)

/-- C7 counterexample: a filename containing a newline is recorded but
    never recognized as recorded, because splitlines cuts it apart: the
    round trip leaves it untested. -/
theorem tracker_newline_counterexample :
    (get_latest_file (save_tested none (joinChars ["a\nb".toList]))
        ["a\nb".toList]).1 = ["a\nb".toList] := by decide

/-- C9 amended: a filename containing "tmp" is never handed to the probe
    in any invocation; when the scan of line-break-free filenames runs to
    completion without a positive classification, the name is persisted
    and shows up as a recorded line, so later invocations exclude it; but
    the persistence is conditional on that completion. -/
theorem tmp_file_never_probed (probe : List Char → ProbeOutcome)
    (files : List (List Char)) (f : List Char)
    (htmp : hasInfix f tmpChars = true)
    (hfiles : ∀ g ∈ files, '\n' ∉ g ∧ '\r' ∉ g) :
    f ∉ (scanFiles probe files).probed
    ∧ ((scanFiles probe files).found = false → f ∈ files →
        ∃ s, (scanFiles probe files).saved = some s ∧ f ∈ pySplitlines s) := by
  constructor
  · intro hmem
    rw [scanFiles_probed] at hmem
    have h1 := mem_takeToFound hmem
    have h2 := (List.mem_filter.mp h1).2
    simp [nonTmp, htmp] at h2
  · intro hnf hmem
    refine ⟨joinChars files, ?_, ?_⟩
    · simp [scanFiles_saved, hnf]
    · rw [ps_joinChars files hfiles]
      exact hmem

/-- Witness for tmp_file_never_probed on a clean one-file scan. -/
theorem tmp_file_never_probed_witness :
    "a.tmp".toList ∉ (scanFiles probeAllClean ["a.tmp".toList]).probed
    ∧ ∃ s, (scanFiles probeAllClean ["a.tmp".toList]).saved = some s
        ∧ "a.tmp".toList ∈ pySplitlines s :=
  ⟨(tmp_file_never_probed probeAllClean ["a.tmp".toList] "a.tmp".toList
      (by decide) (by decide)).1,
   (tmp_file_never_probed probeAllClean ["a.tmp".toList] "a.tmp".toList
      (by decide) (by decide)).2 (by decide) (by decide)⟩

/-- C9 counterexample: with a tmp file followed by a positively probing
    file, the tmp file is indeed never probed, but nothing reaches
    save_tested, so its filename is not recorded tested either. -/
theorem tmp_file_not_recorded_counterexample :
    (scanFiles probeFoundB ["a.tmp".toList, "b.rar".toList]).probed
        = ["b.rar".toList]
    ∧ (scanFiles probeFoundB ["a.tmp".toList, "b.rar".toList]).saved = none := by
  decide

/-- C2: with the password-found flag left by an earlier invocation and an
    otherwise clean completed-download environment, start_check exits with
    POSTPROCESS_SUCCESS before any detection, so the detection branch of
    main that would clear the flag after clean probes is never reached. -/
theorem start_check_skips_previously_flagged :
    start_check envPrevFound true = StartCheckResult.exit POSTPROCESS_SUCCESS
    ∧ detection_reached envPrevFound true = false := by decide

/-- C10: with exactly one stored record file, clean_up performs no queue
    query and removes that record, whatever the active jobs and whatever
    the current job are. -/
theorem clean_up_single_record (f : String) (cur : Option String)
    (active : List String) :
    (clean_up cur [f] active).queried = 0
    ∧ (clean_up cur [f] active).removed = [f] := by
  constructor
  · simp [clean_up]
  · simp only [clean_up]
    cases cur with
    | none => simp
    | some nid =>
      by_cases h : nid = f <;> simp [h]

/-- C6: clean_up queries the queue exactly once when more than one record
    file is stored and never otherwise; every stored record not among the
    active ids is removed; and when the query did run, everything removed
    is a stored record that is either inactive or the current job. -/
theorem clean_up_spec (cur : Option String) (files active : List String) :
    ((clean_up cur files active).queried = 1 ↔ 1 < files.length)
    ∧ (∀ f ∈ files, f ∉ active → f ∈ (clean_up cur files active).removed)
    ∧ (1 < files.length → ∀ f ∈ (clean_up cur files active).removed,
        f ∈ files ∧ (f ∉ active ∨ cur = some f)) := by
  refine ⟨?_, ?_, ?_⟩
  · by_cases h : 1 < files.length <;> simp [clean_up, h]
  · intro f hf hfa
    have hf0 : f ∈ files.filter
        (fun x => !decide (x ∈ (if 1 < files.length then active else []))) := by
      rw [List.mem_filter]
      refine ⟨hf, ?_⟩
      by_cases h : 1 < files.length <;> simp [h, hfa]
    show f ∈ (clean_up cur files active).removed
    simp only [clean_up]
    cases cur with
    | none => exact hf0
    | some nid =>
      by_cases hc : nid ∈ files ∧ nid ∉ files.filter
          (fun x => !decide (x ∈ (if 1 < files.length then active else [])))
      · simp only [hc, if_pos]
        exact List.mem_append_left _ hf0
      · simp only [hc, if_neg, not_false_iff]
        exact hf0
  · intro hlen f
    cases cur with
    | none =>
      intro hf
      simp only [clean_up, if_pos hlen] at hf
      have := List.mem_filter.mp hf
      refine ⟨this.1, Or.inl ?_⟩
      simpa using this.2
    | some nid =>
      intro hf
      simp only [clean_up, if_pos hlen] at hf
      split at hf
      · rcases List.mem_append.mp hf with h | h
        · have := List.mem_filter.mp h
          refine ⟨this.1, Or.inl ?_⟩
          simpa using this.2
        · have hfn : f = nid := by simpa using h
          subst hfn
          rename_i hc
          exact ⟨hc.1, Or.inr rfl⟩
      · have := List.mem_filter.mp hf
        refine ⟨this.1, Or.inl ?_⟩
        simpa using this.2

/-- Witness for clean_up_spec at the spec example: active jobs 1 and 2,
    stored records 1 to 4, current job 3: one query, records 3 and 4
    removed, records 1 and 2 kept. -/
theorem clean_up_spec_witness :
    (clean_up (some "3") ["1", "2", "3", "4"] ["1", "2"]).queried = 1
    ∧ "3" ∈ (clean_up (some "3") ["1", "2", "3", "4"] ["1", "2"]).removed
    ∧ "4" ∈ (clean_up (some "3") ["1", "2", "3", "4"] ["1", "2"]).removed
    ∧ "1" ∉ (clean_up (some "3") ["1", "2", "3", "4"] ["1", "2"]).removed
    ∧ "2" ∉ (clean_up (some "3") ["1", "2", "3", "4"] ["1", "2"]).removed :=
  ⟨(clean_up_spec (some "3") ["1", "2", "3", "4"] ["1", "2"]).1.mpr (by decide),
   (clean_up_spec (some "3") ["1", "2", "3", "4"] ["1", "2"]).2.1 "3"
     (by decide) (by decide),
   (clean_up_spec (some "3") ["1", "2", "3", "4"] ["1", "2"]).2.1 "4"
     (by decide) (by decide),
   fun h => by
     have := (clean_up_spec (some "3") ["1", "2", "3", "4"] ["1", "2"]).2.2
       (by decide) "1" h
     revert this
     decide,
   fun h => by
     have := (clean_up_spec (some "3") ["1", "2", "3", "4"] ["1", "2"]).2.2
       (by decide) "2" h
     revert this
     decide⟩

/-- C5: check_passwordstrings is positive exactly when some comma-separated
    entry of the configured marker list is nonblank after stripping and
    occurs, lowercased, in the lowercased captured output or error text;
    and with the empty marker configuration it is negative for every text. -/
theorem check_passwordstrings_iff (pw outtext errtext : List Char) :
    (check_passwordstrings pw outtext errtext = true ↔
      ∃ m ∈ splitComma pw, pyStrip m ≠ [] ∧
        (hasInfix (lc outtext) (lc (pyStrip m)) = true ∨
         hasInfix (lc errtext) (lc (pyStrip m)) = true))
    ∧ check_passwordstrings [] outtext errtext = false := by
  have hmain : ∀ pw : List Char,
      check_passwordstrings pw outtext errtext = true ↔
        ∃ m ∈ splitComma pw, pyStrip m ≠ [] ∧
          (hasInfix (lc outtext) (lc (pyStrip m)) = true ∨
           hasInfix (lc errtext) (lc (pyStrip m)) = true) := by
    intro pw
    unfold check_passwordstrings
    by_cases hg : splitComma pw = [] ∨ splitComma pw = [[]]
    · rw [if_pos hg]
      constructor
      · intro h
        exact absurd h (by simp)
      · rintro ⟨m, hm, hne, _⟩
        rcases hg with h | h
        · rw [h] at hm
          exact absurd hm (List.not_mem_nil m)
        · rw [h] at hm
          have hme : m = [] := by simpa using hm
          rw [hme] at hne
          exact (hne rfl).elim
    · rw [if_neg hg, List.any_eq_true]
      constructor
      · rintro ⟨m, hm, hb⟩
        refine ⟨m, hm, ?_⟩
        by_cases hn : lc (pyStrip m) = []
        · rw [if_neg (by simpa using hn)] at hb
          exact absurd hb (by simp)
        · rw [if_pos hn] at hb
          refine ⟨?_, ?_⟩
          · intro he
            exact hn (by rw [he]; rfl)
          · exact Bool.or_eq_true_iff.mp hb
      · rintro ⟨m, hm, hne, hocc⟩
        refine ⟨m, hm, ?_⟩
        have hn : lc (pyStrip m) ≠ [] := by
          intro h
          exact hne (by simpa [lc] using h)
        rw [if_pos hn, Bool.or_eq_true_iff]
        exact hocc
  exact ⟨hmain pw, by
    have h := (hmain []).not
    by_contra hc
    rw [Bool.not_eq_false] at hc
    rcases (hmain []).mp hc with ⟨m, hm, hne, _⟩
    have hme : m = [] := by simpa [splitComma] using hm
    rw [hme] at hne
    exact hne rfl⟩

/-- Witness for check_passwordstrings_iff: the default marker configuration
    classifies output containing the incorrect-password message positive,
    case-insensitively. -/
theorem check_passwordstrings_iff_witness :
    check_passwordstrings PasswordStrings
      "abc The Specified Password is Incorrect xyz".toList [] = true :=
  (check_passwordstrings_iff PasswordStrings
    "abc The Specified Password is Incorrect xyz".toList []).1.mpr (by decide)

/-- Folding max over the numbers of a pair list, from any start value. -/
theorem foldlMax (t : List (Nat × Nat)) :
    ∀ a : Nat, t.foldl (fun x q => max x q.2) a = max a (maxNums t) := by
  induction t with
  | nil =>
    intro a
    simp [maxNums]
  | cons q t ih =>
    intro a
    simp only [List.foldl_cons, maxNums]
    rw [ih (max a q.2), ih (max 0 q.2), Nat.zero_max, Nat.max_assoc]

/-- The running maximum over a cons. -/
theorem maxNums_cons (q : Nat × Nat) (t : List (Nat × Nat)) :
    maxNums (q :: t) = max q.2 (maxNums t) := by
  simp only [maxNums, List.foldl_cons]
  rw [foldlMax t (max 0 q.2), Nat.zero_max, maxNums]

/-- The fold of the selection step over the raw listing equals the fold of
    the numeric step over the matching pairs. -/
theorem foldl_selStep (l : List (Nat × List Char)) :
    ∀ st : Option (Nat × Nat),
      l.foldl selStep st = (matchingFiles l).foldl selStepNum st := by
  induction l with
  | nil => intro st; rfl
  | cons p t ih =>
    intro st
    cases hm : matchNum p.2 with
    | none =>
      have hmf : matchingFiles (p :: t) = matchingFiles t := by
        simp [matchingFiles, List.filterMap_cons, hm]
      have hs : selStep st p = st := by simp [selStep, hm]
      rw [List.foldl_cons, hs, hmf]
      exact ih st
    | some n =>
      have hmf : matchingFiles (p :: t) = (p.1, n) :: matchingFiles t := by
        simp [matchingFiles, List.filterMap_cons, hm]
      have hs : selStep st p = selStepNum st (p.1, n) := by
        cases st with
        | none => simp [selStep, selStepNum, hm]
        | some im => simp [selStep, selStepNum, hm]
      rw [List.foldl_cons, hs, hmf, List.foldl_cons]
      exact ih _

/-- A nonzero running maximum is attained by some pair of the list. -/
theorem maxNums_attained (t : List (Nat × Nat)) (h : maxNums t ≠ 0) :
    ∃ q ∈ t, q.2 = maxNums t := by
  induction t with
  | nil => simp [maxNums] at h
  | cons q t ih =>
    rw [maxNums_cons] at h ⊢
    by_cases hle : maxNums t ≤ q.2
    · exact ⟨q, List.mem_cons_self q t, (Nat.max_eq_left hle).symm⟩
    · push_neg at hle
      rw [Nat.max_eq_right (Nat.le_of_lt hle)] at h ⊢
      rcases ih h with ⟨w, hw, hww⟩
      exact ⟨w, List.mem_cons_of_mem q hw, hww⟩

/-- Characterization of the numeric selection fold from a held positive
    value over positive pairs: the held pair survives unless a strictly
    greater number appears, in which case the first pair attaining the
    overall maximum wins. -/
theorem selFold_some (ms : List (Nat × Nat)) (hms : ∀ q ∈ ms, 0 < q.2) :
    ∀ i m : Nat, 0 < m →
      ms.foldl selStepNum (some (i, m)) =
        if maxNums ms ≤ m then some (i, m)
        else ms.find? (fun q => q.2 == maxNums ms) := by
  induction ms with
  | nil =>
    intro i m hm
    rw [if_pos (by simp [maxNums])]
    rfl
  | cons q t ih =>
    intro i m hm
    have hq2 : 0 < q.2 := hms q (List.mem_cons_self q t)
    have hms' : ∀ x ∈ t, 0 < x.2 := fun x hx => hms x (List.mem_cons_of_mem q hx)
    rw [List.foldl_cons]
    by_cases hqm : q.2 > m
    · have hstep : selStepNum (some (i, m)) q = some (q.1, q.2) := by
        simp [selStepNum, hqm]
      rw [hstep, ih hms' q.1 q.2 hq2, maxNums_cons]
      have hnm : ¬ max q.2 (maxNums t) ≤ m := fun hle =>
        absurd (le_trans (Nat.le_max_left _ _) hle) (by omega)
      rw [if_neg hnm]
      by_cases hlt : maxNums t ≤ q.2
      · rw [if_pos hlt, Nat.max_eq_left hlt, List.find?_cons_of_pos _ (by simp)]
      · push_neg at hlt
        rw [if_neg (by omega), Nat.max_eq_right (Nat.le_of_lt hlt),
            List.find?_cons_of_neg _ (by simp; omega)]
    · push_neg at hqm
      have hstep : selStepNum (some (i, m)) q = some (i, m) := by
        have hc : ¬ ((i, m).2 = 0 ∨ q.2 > (i, m).2) := by simp; omega
        simp [selStepNum, hc]
      rw [hstep, ih hms' i m hm, maxNums_cons]
      by_cases hlt : maxNums t ≤ m
      · rw [if_pos hlt, if_pos (Nat.max_le.mpr ⟨hqm, hlt⟩)]
      · push_neg at hlt
        have hni : ¬ max q.2 (maxNums t) ≤ m := fun hle =>
          absurd (le_trans (Nat.le_max_right _ _) hle) (by omega)
        rw [if_neg (by omega), if_neg hni,
            Nat.max_eq_right (le_trans hqm (Nat.le_of_lt hlt)),
            List.find?_cons_of_neg _ (by simp; omega)]

/-- C3 amended: over a listing whose matching entries all carry a nonzero
    file id and a nonzero extracted number, sort_inner_files returns the id
    of the first matching file attaining the maximum number (later files
    with an equal number never overwrite it), and returns none exactly when
    no file matches either pattern.  Without the nonzero restrictions the
    Python falsy tests break both statements. -/
theorem sort_inner_files_first_max (l : List (Nat × List Char))
    (hpos : ∀ q ∈ matchingFiles l, 0 < q.1 ∧ 0 < q.2) :
    sort_inner_files l
        = ((matchingFiles l).find?
            (fun q => q.2 == maxNums (matchingFiles l))).map Prod.fst
    ∧ (sort_inner_files l = none ↔ matchingFiles l = []) := by
  have hfold : l.foldl selStep none = (matchingFiles l).foldl selStepNum none :=
    foldl_selStep l none
  cases hms : matchingFiles l with
  | nil =>
    rw [hms] at hfold
    have hnone : l.foldl selStep none = none := hfold
    constructor
    · simp [sort_inner_files, hnone, hms]
    · simp [sort_inner_files, hnone, hms]
  | cons q t =>
    rw [hms] at hfold
    have hq := hpos q (by rw [hms]; exact List.mem_cons_self q t)
    have hts : ∀ x ∈ t, 0 < x.2 := fun x hx =>
      (hpos x (by rw [hms]; exact List.mem_cons_of_mem q hx)).2
    have hstep0 : selStepNum none q = some (q.1, q.2) := by simp [selStepNum]
    have hthis : l.foldl selStep none =
        if maxNums t ≤ q.2 then some (q.1, q.2)
        else t.find? (fun x => x.2 == maxNums t) := by
      rw [hfold, List.foldl_cons, hstep0, selFold_some t hts q.1 q.2 hq.2]
    have key : ∃ w, (q :: t).find? (fun x => x.2 == maxNums (q :: t)) = some w
        ∧ sort_inner_files l = some w.1 := by
      by_cases hlt : maxNums t ≤ q.2
      · rw [if_pos hlt] at hthis
        refine ⟨q, ?_, ?_⟩
        · rw [maxNums_cons, Nat.max_eq_left hlt]
          exact List.find?_cons_of_pos _ (by simp)
        · simp [sort_inner_files, hthis, Nat.pos_iff_ne_zero.mp hq.1]
      · push_neg at hlt
        rw [if_neg (by omega)] at hthis
        rcases maxNums_attained t (by omega) with ⟨w0, hw0, hww0⟩
        have hsome : (t.find? (fun x => x.2 == maxNums t)).isSome := by
          rw [List.find?_isSome]
          exact ⟨w0, hw0, by simp [hww0]⟩
        rcases Option.isSome_iff_exists.mp hsome with ⟨w, hfw⟩
        have hwmem : w ∈ t := List.mem_of_find?_eq_some hfw
        have hw1 : 0 < w.1 :=
          (hpos w (by rw [hms]; exact List.mem_cons_of_mem q hwmem)).1
        refine ⟨w, ?_, ?_⟩
        · rw [maxNums_cons, Nat.max_eq_right (Nat.le_of_lt hlt),
              List.find?_cons_of_neg _ (by simp; omega)]
          exact hfw
        · simp [sort_inner_files, hthis, hfw, Nat.pos_iff_ne_zero.mp hw1]
    rcases key with ⟨w, hfw, hsw⟩
    constructor
    · rw [hsw, hfw]
      rfl
    · rw [hsw]
      constructor
      · intro h
        exact Option.noConfusion h
      · intro h
        exact absurd h (List.cons_ne_nil q t)

/-- Witness for sort_inner_files_first_max at the spec example listing:
    the chosen file is id 5 (number 10 beats 2 and 1). -/
theorem sort_inner_files_first_max_witness :
    sort_inner_files exampleListing = some 5 :=
  ((sort_inner_files_first_max exampleListing (by decide)).1).trans (by decide)

/-- C3 counterexample: two files both matching with number 0 make the
    later one overwrite the earlier (the Python falsy test fires on a held
    0), so the returned id is 2, not the first maximal file 1; and a
    matching file with id 0 is reported as no file at all. -/
theorem sort_inner_files_counterexample :
    sort_inner_files [(1, "a.part0.rar".toList), (2, "b.part0.rar".toList)] = some 2
    ∧ matchNum "a.part0.rar".toList = some 0
    ∧ matchNum "c.part02.rar".toList = some 2
    ∧ sort_inner_files [(0, "c.part02.rar".toList)] = none := by decide

/-- Witness for clean_up_single_record: the single stored record belongs
    to the active job 7 while the current job is 9, and it is still removed
    without a query. -/
theorem clean_up_single_record_witness :
    (clean_up (some "9") ["7"] ["7"]).queried = 0
    ∧ (clean_up (some "9") ["7"] ["7"]).removed = ["7"] :=
  clean_up_single_record "7" (some "9") ["7"]
